import Mathlib

/-!
Verification of `pcl::registration::TransformationEstimationPointToPointRobust`
(`src/registration/include/pcl/registration/transformation_estimation_point_to_point_robust.h`).

The repository ships only the class header; the implementation file
`pcl/registration/impl/transformation_estimation_point_to_point_robust.hpp`
(included on the last line of the header) is not part of the sources.  The
header fixes the class state (`sigma_ = -1`, line 180), the setter `set_sigma`
(lines 129-133), the four `const` estimation entry points and the two protected
helpers; the numeric behaviour of those helpers is modelled from the design
specification (sections 4.1-4.5 and 7), as noted on each definition below.

Real numbers stand for the C++ `Scalar` type; the finiteness test
`pcl::isFinite` on a point is modelled by an explicit `valid` flag, and the
trusted third-party SVD factorisation is a function parameter `svd` together
with hypotheses stating the properties of an exact singular value
decomposition.
-/

open Matrix Filter

/-- Square 3x3 real matrix, the shape of the correlation matrix `H`. -/
abbrev M3 := Matrix (Fin 3) (Fin 3) ℝ

/-- Square 4x4 real matrix, the shape of the returned homogeneous transform. -/
abbrev M4 := Matrix (Fin 4) (Fin 4) ℝ

/-- Coordinate vector in 3-D. -/
abbrev V3 := Fin 3 → ℝ

/-- Homogeneous coordinate vector in 4-D. -/
abbrev V4 := Fin 4 → ℝ

/-- A 3-D point of a cloud.  `valid` models the finiteness of its coordinates
(`pcl::isFinite`): points with non-finite coordinates carry `valid = false` and
are skipped by every centroid/covariance computation. -/
structure Point where
  x : ℝ
  y : ℝ
  z : ℝ
  valid : Bool

/-- The coordinate vector of a point. -/
def Point.vec (p : Point) : V3 := ![p.x, p.y, p.z]

/-- Modelled from the spec: the Welsch robust weight function of section 4.1
(the implementation file holding it is not under `src/`).  Given the residual
distance `d` of one correspondence and the scale `sigma` (the member `sigma_`
of header line 180), the weight is `1` when `sigma <= 0` (plain unweighted
estimation) and `exp (-d^2 / (2 sigma^2))` otherwise.  It is a pure function of
its two arguments. -/
noncomputable def robustWeight (sigma d : ℝ) : ℝ :=
  if sigma ≤ 0 then 1 else Real.exp (-d ^ 2 / (2 * sigma ^ 2))

/-- C2: for a non-negative residual distance `d`, the robust weight equals 1
when `sigma <= 0` and `exp (-d^2 / (2 sigma^2))` when `sigma > 0`; in the
latter case it lies in `(0, 1]`, is monotonically decreasing in `d`, tends to 1
as `d` tends to 0 and to 0 as `d` tends to infinity.  (Absence of side effects
holds by construction: `robustWeight` is a function of its arguments only.) -/
theorem robustWeight_spec (sigma d : ℝ) (hd : 0 ≤ d) :
    (sigma ≤ 0 → robustWeight sigma d = 1) ∧
    (0 < sigma →
      robustWeight sigma d = Real.exp (-d ^ 2 / (2 * sigma ^ 2)) ∧
      0 < robustWeight sigma d ∧
      robustWeight sigma d ≤ 1 ∧
      (∀ d2 : ℝ, d ≤ d2 → robustWeight sigma d2 ≤ robustWeight sigma d) ∧
      Tendsto (robustWeight sigma) (nhds 0) (nhds 1) ∧
      Tendsto (robustWeight sigma) atTop (nhds 0)) := by
  have hform : ∀ s : ℝ, 0 < s → robustWeight s = fun x : ℝ =>
      Real.exp (-x ^ 2 / (2 * s ^ 2)) := by
    intro s hs
    funext x
    exact if_neg (not_le.mpr hs)
  refine ⟨fun h => if_pos h, fun hs => ?_⟩
  have hs2 : 0 < 2 * sigma ^ 2 := by positivity
  have happ : ∀ x : ℝ, robustWeight sigma x = Real.exp (-x ^ 2 / (2 * sigma ^ 2)) := by
    intro x
    exact congrFun (hform sigma hs) x
  refine ⟨happ d, ?_, ?_, ?_, ?_, ?_⟩
  · rw [happ d]; exact Real.exp_pos _
  · rw [happ d]
    refine Real.exp_le_one_iff.mpr ?_
    exact div_nonpos_of_nonpos_of_nonneg (neg_nonpos.mpr (by positivity)) hs2.le
  · intro d2 hdd
    rw [happ d, happ d2]
    refine Real.exp_le_exp.mpr ?_
    have hsq : d ^ 2 ≤ d2 ^ 2 := pow_le_pow_left₀ hd hdd 2
    gcongr
  · rw [hform sigma hs]
    have hc : Continuous fun x : ℝ => Real.exp (-x ^ 2 / (2 * sigma ^ 2)) := by
      exact Real.continuous_exp.comp (((continuous_pow 2).neg).div_const _)
    have := hc.tendsto 0
    simpa using this
  · rw [hform sigma hs]
    have h1 : Tendsto (fun x : ℝ => x ^ 2 / (2 * sigma ^ 2)) atTop atTop := by
      exact (tendsto_pow_atTop (by norm_num)).atTop_div_const hs2
    have h2 : Tendsto (fun x : ℝ => -x ^ 2 / (2 * sigma ^ 2)) atTop atBot := by
      have := tendsto_neg_atTop_atBot.comp h1
      simpa [Function.comp_def, neg_div] using this
    exact Real.tendsto_exp_atBot.comp h2

/-- Witness for C2 at `sigma = 1`, `d = 2`. -/
theorem robustWeight_spec_witness :
    ((1 : ℝ) ≤ 0 → robustWeight 1 2 = 1) ∧
    ((0 : ℝ) < 1 →
      robustWeight 1 2 = Real.exp (-(2 : ℝ) ^ 2 / (2 * 1 ^ 2)) ∧
      0 < robustWeight 1 2 ∧
      robustWeight 1 2 ≤ 1 ∧
      (∀ d2 : ℝ, 2 ≤ d2 → robustWeight 1 d2 ≤ robustWeight 1 2) ∧
      Tendsto (robustWeight 1) (nhds 0) (nhds 1) ∧
      Tendsto (robustWeight 1) atTop (nhds 0)) :=
  robustWeight_spec 1 2 (by norm_num)

/-- Modelled from the spec: the accumulation loop of the weighted centroid of
section 4.2 (the implementation file holding it is not under `src/`): a single
pass over the parallel point/weight sequence accumulating the weighted
coordinate sum, the weight sum and the count of valid points, skipping invalid
points entirely. -/
def centroidAccum (l : List (Point × ℝ)) : V3 × ℝ × ℕ :=
  l.foldr
    (fun pw acc =>
      if pw.1.valid then (pw.2 • pw.1.vec + acc.1, pw.2 + acc.2.1, acc.2.2 + 1) else acc)
    (0, 0, 0)

/-- Modelled from the spec: `computeWeighted3DCentroid` (declared at header
lines 174-177; the implementation file is not under `src/`).  Consumes the
point sequence and the parallel weight vector, and returns the number of valid
points that contributed together with the new value of the centroid
out-parameter: when the count is 0 the out-parameter keeps its old value `c0`,
otherwise it is the weighted mean of the valid points with fourth component
set to 1. -/
noncomputable def computeWeighted3DCentroid (points : List Point) (weights : List ℝ)
    (c0 : V4) : ℕ × V4 :=
  let a := centroidAccum (points.zip weights)
  if a.2.2 = 0 then (0, c0)
  else (a.2.2, ![a.1 0 / a.2.1, a.1 1 / a.2.1, a.1 2 / a.2.1, 1])

/-- The fold underlying the centroid equals the filtered sums: weighted
coordinate sum, weight sum and count over the valid entries. -/
theorem centroidAccum_eq (l : List (Point × ℝ)) :
    centroidAccum l =
      (((l.filter fun pw => pw.1.valid).map fun pw => pw.2 • pw.1.vec).sum,
       ((l.filter fun pw => pw.1.valid).map fun pw => pw.2).sum,
       (l.filter fun pw => pw.1.valid).length) := by
  induction l with
  | nil => simp [centroidAccum]
  | cons hd tl ih =>
    by_cases hv : hd.1.valid
    · simp only [centroidAccum, List.foldr_cons, List.filter_cons, hv, if_true]
      rw [show (List.foldr _ _ tl : V3 × ℝ × ℕ) = centroidAccum tl from rfl, ih]
      simp
    · simp only [centroidAccum, List.foldr_cons, List.filter_cons, hv, if_false]
      rw [show (List.foldr _ _ tl : V3 × ℝ × ℕ) = centroidAccum tl from rfl, ih]
      simp [hv]

/-- With parallel sequences, zipping then filtering on point validity keeps as
many entries as filtering the points alone. -/
theorem zip_filter_valid_length (points : List Point) (weights : List ℝ)
    (hlen : points.length = weights.length) :
    ((points.zip weights).filter fun pw => pw.1.valid).length =
      (points.filter fun p => p.valid).length := by
  induction points generalizing weights with
  | nil => simp
  | cons p ps ih =>
    cases weights with
    | nil => simp at hlen
    | cons w ws =>
      have hlen' : ps.length = ws.length := by simpa using hlen
      by_cases hv : p.valid
      · simp [List.zip_cons_cons, List.filter_cons, hv, ih ws hlen']
      · simp [List.zip_cons_cons, List.filter_cons, hv, ih ws hlen']

/-- C5: `computeWeighted3DCentroid` returns the number of valid points, and
when that count is positive the output centroid is the weighted mean
`(sum of w_i * point_i) / (sum of w_i)` over the valid points only, with the
fourth component set to 1; when the count is 0 the centroid out-parameter is
returned unmodified. -/
theorem computeWeighted3DCentroid_spec (points : List Point) (weights : List ℝ)
    (c0 : V4) (hlen : points.length = weights.length) :
    (computeWeighted3DCentroid points weights c0).1 =
      (points.filter fun p => p.valid).length ∧
    ((computeWeighted3DCentroid points weights c0).1 = 0 →
      (computeWeighted3DCentroid points weights c0).2 = c0) ∧
    (0 < (computeWeighted3DCentroid points weights c0).1 →
      (computeWeighted3DCentroid points weights c0).2 =
        ![((((points.zip weights).filter fun pw => pw.1.valid).map
              fun pw => pw.2 • pw.1.vec).sum 0) /
            (((points.zip weights).filter fun pw => pw.1.valid).map
              fun pw => pw.2).sum,
          ((((points.zip weights).filter fun pw => pw.1.valid).map
              fun pw => pw.2 • pw.1.vec).sum 1) /
            (((points.zip weights).filter fun pw => pw.1.valid).map
              fun pw => pw.2).sum,
          ((((points.zip weights).filter fun pw => pw.1.valid).map
              fun pw => pw.2 • pw.1.vec).sum 2) /
            (((points.zip weights).filter fun pw => pw.1.valid).map
              fun pw => pw.2).sum,
          1]) := by
  have hacc := centroidAccum_eq (points.zip weights)
  have hcnt := zip_filter_valid_length points weights hlen
  by_cases h0 : ((points.zip weights).filter fun pw => pw.1.valid).length = 0
  · have hc : (computeWeighted3DCentroid points weights c0) = (0, c0) := by
      unfold computeWeighted3DCentroid
      rw [hacc]
      simp [h0]
    refine ⟨?_, fun _ => by rw [hc], fun hpos => ?_⟩
    · rw [hc, ← hcnt, h0]
    · rw [hc] at hpos
      simp at hpos
  · have hc : (computeWeighted3DCentroid points weights c0) =
        (((points.zip weights).filter fun pw => pw.1.valid).length,
         ![((((points.zip weights).filter fun pw => pw.1.valid).map
               fun pw => pw.2 • pw.1.vec).sum 0) /
             (((points.zip weights).filter fun pw => pw.1.valid).map
               fun pw => pw.2).sum,
           ((((points.zip weights).filter fun pw => pw.1.valid).map
               fun pw => pw.2 • pw.1.vec).sum 1) /
             (((points.zip weights).filter fun pw => pw.1.valid).map
               fun pw => pw.2).sum,
           ((((points.zip weights).filter fun pw => pw.1.valid).map
               fun pw => pw.2 • pw.1.vec).sum 2) /
             (((points.zip weights).filter fun pw => pw.1.valid).map
               fun pw => pw.2).sum,
           1]) := by
      unfold computeWeighted3DCentroid
      rw [hacc]
      simp [h0]
    refine ⟨by rw [hc, hcnt], fun hz => ?_, fun _ => by rw [hc]⟩
    rw [hc] at hz
    exact absurd hz h0

/-- Witness for C5: two points with parallel weights, the second one invalid;
the count is 1 and the centroid is the weighted mean of the first point. -/
theorem computeWeighted3DCentroid_spec_witness :
    ((⟨1, 2, 3, true⟩ : Point) :: [⟨5, 5, 5, false⟩]).length = ([2, 7] : List ℝ).length ∧
    (computeWeighted3DCentroid [⟨1, 2, 3, true⟩, ⟨5, 5, 5, false⟩] [2, 7] 0).1 =
      (([⟨1, 2, 3, true⟩, ⟨5, 5, 5, false⟩] : List Point).filter fun p => p.valid).length :=
  ⟨by simp,
   (computeWeighted3DCentroid_spec [⟨1, 2, 3, true⟩, ⟨5, 5, 5, false⟩] [2, 7] 0 (by simp)).1⟩

/-- The outer product `a * b^t` of two coordinate vectors, one summand of the
correlation matrix. -/
def outerProd (a b : V3) : M3 := Matrix.of fun i j => a i * b j

/-- Modelled from the spec: the weighted correlation matrix of section 4.3,
`H = sum of w_i * (src_i - c_src)(tgt_i - c_tgt)^t` over the demeaned
coordinates (the implementation file holding it is not under `src/`). -/
def corrMatrix (srcDemean tgtDemean : List V3) (weights : List ℝ) : M3 :=
  (((srcDemean.zip tgtDemean).zip weights).map fun sw => sw.2 • outerProd sw.1.1 sw.1.2).sum

/-- Modelled from the spec: the reflection correction of section 4.4 negates
the last column of `V`. -/
def negLastCol (V : M3) : M3 := Matrix.of fun i j => if j = 2 then -V i j else V i j

/-- Modelled from the spec: rotation extraction of section 4.4 (the
implementation file holding it is not under `src/`): candidate `R = V * U^t`;
when `det R < 0` the last column of `V` is negated and `R` recomputed. -/
noncomputable def rotationFromSVD (U V : M3) : M3 :=
  if (V * Uᵀ).det < 0 then negLastCol V * Uᵀ else V * Uᵀ

/-- Negating the last column is multiplication on the right by
`diag (1, 1, -1)`. -/
theorem negLastCol_eq (V : M3) : negLastCol V = V * Matrix.diagonal ![1, 1, -1] := by
  ext i j
  rw [Matrix.mul_diagonal]
  fin_cases j <;> simp [negLastCol]

/-- Negating the last column flips the determinant sign. -/
theorem det_negLastCol (V : M3) : (negLastCol V).det = -V.det := by
  rw [negLastCol_eq, Matrix.det_mul, Matrix.det_diagonal, Fin.prod_univ_three]
  simp

/-- An orthogonal matrix has determinant whose square is one. -/
theorem det_mul_self_of_ortho (A : M3) (hA : Aᵀ * A = 1) : A.det * A.det = 1 := by
  have := congrArg Matrix.det hA
  rwa [Matrix.det_mul, Matrix.det_transpose, Matrix.det_one] at this

/-- The corrective diagonal matrix squares to the identity. -/
theorem diagFix_mul_diagFix :
    Matrix.diagonal ![1, 1, -1] * Matrix.diagonal ![(1 : ℝ), 1, -1] = 1 := by
  rw [Matrix.diagonal_mul_diagonal]
  have : (fun i => ![(1 : ℝ), 1, -1] i * ![(1 : ℝ), 1, -1] i) = fun _ => (1 : ℝ) := by
    funext i
    fin_cases i <;> norm_num
  rw [this, Matrix.diagonal_one]

/-- Negating the last column of a matrix with orthonormal columns keeps the
columns orthonormal. -/
theorem negLastCol_ortho (V : M3) (hV : Vᵀ * V = 1) :
    (negLastCol V)ᵀ * negLastCol V = 1 := by
  rw [negLastCol_eq, Matrix.transpose_mul, Matrix.diagonal_transpose]
  calc Matrix.diagonal ![1, 1, -1] * Vᵀ * (V * Matrix.diagonal ![1, 1, -1])
      = Matrix.diagonal ![1, 1, -1] * (Vᵀ * V) * Matrix.diagonal ![1, 1, -1] := by
        simp [Matrix.mul_assoc]
    _ = 1 := by rw [hV, Matrix.mul_one, diagFix_mul_diagFix]

/-- The product `V * U^t` of two matrices with orthonormal columns has
orthonormal columns. -/
theorem mul_transpose_ortho (U V : M3) (hU : Uᵀ * U = 1) (hV : Vᵀ * V = 1) :
    (V * Uᵀ)ᵀ * (V * Uᵀ) = 1 := by
  have hUU : U * Uᵀ = 1 := Matrix.mul_eq_one_comm.mp hU
  calc (V * Uᵀ)ᵀ * (V * Uᵀ) = U * (Vᵀ * V) * Uᵀ := by
        rw [Matrix.transpose_mul, Matrix.transpose_transpose]
        simp [Matrix.mul_assoc]
    _ = 1 := by rw [hV, Matrix.mul_one, hUU]

/-- Core of C1: the reflection-corrected rotation extracted from orthogonal SVD
factors is a proper rotation: determinant `+1` and orthonormal columns and
rows. -/
theorem rotationFromSVD_proper (U V : M3) (hU : Uᵀ * U = 1) (hV : Vᵀ * V = 1) :
    (rotationFromSVD U V).det = 1 ∧
    (rotationFromSVD U V)ᵀ * rotationFromSVD U V = 1 ∧
    rotationFromSVD U V * (rotationFromSVD U V)ᵀ = 1 := by
  have hdet2 : (V * Uᵀ).det * (V * Uᵀ).det = 1 :=
    det_mul_self_of_ortho _ (mul_transpose_ortho U V hU hV)
  have hdet : (V * Uᵀ).det = 1 ∨ (V * Uᵀ).det = -1 := mul_self_eq_one_iff.mp hdet2
  by_cases hneg : (V * Uᵀ).det < 0
  · have hR : rotationFromSVD U V = negLastCol V * Uᵀ := if_pos hneg
    have hVneg : (negLastCol V)ᵀ * negLastCol V = 1 := negLastCol_ortho V hV
    have hortho : (negLastCol V * Uᵀ)ᵀ * (negLastCol V * Uᵀ) = 1 :=
      mul_transpose_ortho U (negLastCol V) hU hVneg
    have hdneg : (V * Uᵀ).det = -1 := by
      rcases hdet with h1 | h1
      · rw [h1] at hneg; norm_num at hneg
      · exact h1
    have hd : (negLastCol V * Uᵀ).det = 1 := by
      rw [Matrix.det_mul, det_negLastCol, neg_mul, ← Matrix.det_mul, hdneg, neg_neg]
    rw [hR]
    exact ⟨hd, hortho, Matrix.mul_eq_one_comm.mp hortho⟩
  · have hR : rotationFromSVD U V = V * Uᵀ := if_neg hneg
    have hortho := mul_transpose_ortho U V hU hV
    have hd : (V * Uᵀ).det = 1 := by
      rcases hdet with h1 | h1
      · exact h1
      · rw [h1] at hneg; norm_num at hneg
    rw [hR]
    exact ⟨hd, hortho, Matrix.mul_eq_one_comm.mp hortho⟩

/-- Drop the homogeneous component of a 4-vector. -/
def vec3of4 (c : V4) : V3 := ![c 0, c 1, c 2]

/-- Modelled from the spec: assembly of the final 4x4 homogeneous matrix of
section 4.4: `R` in the upper-left 3x3 block, `t` in the rightmost column,
bottom row fixed to `[0, 0, 0, 1]`. -/
def assembleTransform (R : M3) (t : V3) : M4 :=
  Matrix.of fun i j =>
    if hi : (i : ℕ) < 3 then
      if hj : (j : ℕ) < 3 then R ⟨i, hi⟩ ⟨j, hj⟩ else t ⟨i, hi⟩
    else if (j : ℕ) = 3 then 1 else 0

/-- The upper-left 3x3 block of a 4x4 matrix. -/
def upperLeft3 (T : M4) : M3 := Matrix.of fun i j => T i.castSucc j.castSucc

/-- Reading back the rotation block of the assembled transform. -/
theorem upperLeft3_assembleTransform (R : M3) (t : V3) :
    upperLeft3 (assembleTransform R t) = R := by
  ext i j
  have hi : ((i.castSucc : Fin 4) : ℕ) < 3 := by simp [Fin.coe_castSucc, i.isLt]
  have hj : ((j.castSucc : Fin 4) : ℕ) < 3 := by simp [Fin.coe_castSucc, j.isLt]
  simp [upperLeft3, assembleTransform, hi, hj]

/-- Modelled from the spec: the rotation part of
`getTransformationFromCorrelation` (declared at header lines 153-160; the
implementation file is not under `src/`).  Builds the weighted correlation
matrix from the demeaned clouds, factorises it through the trusted SVD library
dependency `svd` (returning `(U, S, V)`) and extracts the
reflection-corrected rotation. -/
noncomputable def solvedRotation (svd : M3 → M3 × M3 × M3)
    (srcDemean tgtDemean : List V3) (weights : List ℝ) : M3 :=
  rotationFromSVD (svd (corrMatrix srcDemean tgtDemean weights)).1
    (svd (corrMatrix srcDemean tgtDemean weights)).2.2

/-- Modelled from the spec, continuing `getTransformationFromCorrelation`: the
assembled result, with the translation recovered as `t = c_tgt - R * c_src`
from the 3-D parts of the homogeneous centroids. -/
noncomputable def getTransformationFromCorrelation (svd : M3 → M3 × M3 × M3)
    (srcDemean tgtDemean : List V3) (weights : List ℝ) (cSrc cTgt : V4) : M4 :=
  assembleTransform (solvedRotation svd srcDemean tgtDemean weights)
    (vec3of4 cTgt -
      (solvedRotation svd srcDemean tgtDemean weights).mulVec (vec3of4 cSrc))

/-- A correspondence pair participates only when both of its points are valid
(section 4.5: pairs where either point is invalid are skipped). -/
def pairValid (pr : Point × Point) : Bool := pr.1.valid && pr.2.valid

/-- The validated pair sequence handed to the numeric pipeline. -/
def validPairs (pairs : List (Point × Point)) : List (Point × Point) :=
  pairs.filter pairValid

/-- Modelled from the spec: the per-correspondence residual distance, the
Euclidean distance between the source point (under the identity prior
transform of the first iteration, section 9) and its target point. -/
noncomputable def residualDist (ps pt : Point) : ℝ :=
  Real.sqrt ((ps.x - pt.x) ^ 2 + (ps.y - pt.y) ^ 2 + (ps.z - pt.z) ^ 2)

/-- The robust weight of one correspondence pair. -/
noncomputable def pairWeight (sigma : ℝ) (pr : Point × Point) : ℝ :=
  robustWeight sigma (residualDist pr.1 pr.2)

/-- The weight vector of the validated pairs, recomputed every call. -/
noncomputable def pipelineWeights (sigma : ℝ) (pairs : List (Point × Point)) : List ℝ :=
  (validPairs pairs).map (pairWeight sigma)

/-- Valid count and weighted centroid of the source side of the pairs. -/
noncomputable def pipelineCentroidSrc (sigma : ℝ) (pairs : List (Point × Point)) : ℕ × V4 :=
  computeWeighted3DCentroid ((validPairs pairs).map fun pr => pr.1)
    (pipelineWeights sigma pairs) 0

/-- Valid count and weighted centroid of the target side of the pairs. -/
noncomputable def pipelineCentroidTgt (sigma : ℝ) (pairs : List (Point × Point)) : ℕ × V4 :=
  computeWeighted3DCentroid ((validPairs pairs).map fun pr => pr.2)
    (pipelineWeights sigma pairs) 0

/-- The demeaned source coordinates of the validated pairs. -/
noncomputable def pipelineSrcDemean (sigma : ℝ) (pairs : List (Point × Point)) : List V3 :=
  (validPairs pairs).map fun pr => pr.1.vec - vec3of4 (pipelineCentroidSrc sigma pairs).2

/-- The demeaned target coordinates of the validated pairs. -/
noncomputable def pipelineTgtDemean (sigma : ℝ) (pairs : List (Point × Point)) : List V3 :=
  (validPairs pairs).map fun pr => pr.2.vec - vec3of4 (pipelineCentroidTgt sigma pairs).2

/-- The weighted correlation matrix the pipeline hands to the SVD. -/
noncomputable def pipelineH (sigma : ℝ) (pairs : List (Point × Point)) : M3 :=
  corrMatrix (pipelineSrcDemean sigma pairs) (pipelineTgtDemean sigma pairs)
    (pipelineWeights sigma pairs)

/-- The error taxonomy of section 7. -/
inductive EstError where
  | invalidArgument
  | degenerateInput
  deriving DecidableEq

/-- Modelled from the spec: the shared internal estimation path (protected
`estimateRigidTransformation` over cloud iterators, header lines 141-144; the
implementation file is not under `src/`).  Skips invalid pairs, computes the
weight vector and both weighted centroids, aborts with `degenerateInput` when
the centroid count-0 signal fires (section 7), otherwise demeans both sides
and hands off to `getTransformationFromCorrelation`.  The result is the final
value of the transform out-parameter (`t0` when the call aborts) together with
the surfaced error, if any. -/
noncomputable def runPipeline (svd : M3 → M3 × M3 × M3) (sigma : ℝ)
    (pairs : List (Point × Point)) (t0 : M4) : M4 × Option EstError :=
  if (pipelineCentroidSrc sigma pairs).1 = 0 then (t0, some EstError.degenerateInput)
  else
    (getTransformationFromCorrelation svd (pipelineSrcDemean sigma pairs)
      (pipelineTgtDemean sigma pairs) (pipelineWeights sigma pairs)
      (pipelineCentroidSrc sigma pairs).2 (pipelineCentroidTgt sigma pairs).2, none)

/-- The estimator class `TransformationEstimationPointToPointRobust`: its only
state is the Welsch scale parameter `sigma_` (header line 180). -/
structure TransformationEstimationPointToPointRobust where
  sigma_ : ℝ

/-- Default construction (header line 74 with the in-class initializer
`Scalar sigma_ = -1` of line 180). -/
def mkEstimator : TransformationEstimationPointToPointRobust := ⟨-1⟩

/-- `set_sigma` (header lines 129-133): stores exactly its argument into
`sigma_`; the estimator has no other state. -/
def set_sigma (e : TransformationEstimationPointToPointRobust) (sigma : ℝ) : TransformationEstimationPointToPointRobust := ⟨sigma⟩

/-- Outcome of one estimation call: the final value of the
`transformation_matrix` out-parameter, the surfaced error (if any) and the
estimator state after the call (the entry points are `const`, header lines
83-127). -/
structure EstOutcome where
  transform : M4
  error : Option EstError
  state : TransformationEstimationPointToPointRobust

/-- Resolve an index list against a cloud; `none` when an index is out of
bounds (the malformed-input case of section 7). -/
def resolveIndices (cloud : List Point) (idxs : List ℕ) : Option (List Point) :=
  idxs.mapM fun i => cloud[i]?

/-- Modelled from the spec: overload 1 of `estimateRigidTransformation`
(header lines 83-86): full source cloud against full target cloud, implicit
1:1 pairing, equal cardinality required (section 4.5). -/
noncomputable def estimateRigidTransformationFull (e : TransformationEstimationPointToPointRobust)
    (svd : M3 → M3 × M3 × M3) (cloudSrc cloudTgt : List Point) (t0 : M4) : EstOutcome :=
  if cloudSrc.length ≠ cloudTgt.length then ⟨t0, some EstError.invalidArgument, e⟩
  else
    let r := runPipeline svd e.sigma_ (cloudSrc.zip cloudTgt) t0
    ⟨r.1, r.2, e⟩

/-- Modelled from the spec: overload 2 of `estimateRigidTransformation`
(header lines 95-99): selected source points, in order, against the full
target cloud; sizes must match (section 4.5). -/
noncomputable def estimateRigidTransformationSrcIndices (e : TransformationEstimationPointToPointRobust)
    (svd : M3 → M3 × M3 × M3) (cloudSrc : List Point) (indicesSrc : List ℕ)
    (cloudTgt : List Point) (t0 : M4) : EstOutcome :=
  if indicesSrc.length ≠ cloudTgt.length then ⟨t0, some EstError.invalidArgument, e⟩
  else
    match resolveIndices cloudSrc indicesSrc with
    | none => ⟨t0, some EstError.invalidArgument, e⟩
    | some srcPts =>
      let r := runPipeline svd e.sigma_ (srcPts.zip cloudTgt) t0
      ⟨r.1, r.2, e⟩

/-- Modelled from the spec: overload 3 of `estimateRigidTransformation`
(header lines 110-115): explicit parallel source/target index arrays; their
lengths must match, otherwise the call fails with `invalidArgument` before any
numeric work (section 7). -/
noncomputable def estimateRigidTransformationBothIndices (e : TransformationEstimationPointToPointRobust)
    (svd : M3 → M3 × M3 × M3) (cloudSrc : List Point) (indicesSrc : List ℕ)
    (cloudTgt : List Point) (indicesTgt : List ℕ) (t0 : M4) : EstOutcome :=
  if indicesSrc.length ≠ indicesTgt.length then ⟨t0, some EstError.invalidArgument, e⟩
  else
    match resolveIndices cloudSrc indicesSrc, resolveIndices cloudTgt indicesTgt with
    | some srcPts, some tgtPts =>
      let r := runPipeline svd e.sigma_ (srcPts.zip tgtPts) t0
      ⟨r.1, r.2, e⟩
    | _, _ => ⟨t0, some EstError.invalidArgument, e⟩

/-- Modelled from the spec: overload 4 of `estimateRigidTransformation`
(header lines 123-127): explicit correspondence list, each entry resolved
against the two clouds; out-of-bounds indices fail with `invalidArgument`
(section 7). -/
noncomputable def estimateRigidTransformationCorrs (e : TransformationEstimationPointToPointRobust)
    (svd : M3 → M3 × M3 × M3) (cloudSrc cloudTgt : List Point)
    (corrs : List (ℕ × ℕ)) (t0 : M4) : EstOutcome :=
  match resolveIndices cloudSrc (corrs.map fun c => c.1),
      resolveIndices cloudTgt (corrs.map fun c => c.2) with
  | some srcPts, some tgtPts =>
    let r := runPipeline svd e.sigma_ (srcPts.zip tgtPts) t0
    ⟨r.1, r.2, e⟩
  | _, _ => ⟨t0, some EstError.invalidArgument, e⟩

/-- C7: whenever the indices overload of `estimateRigidTransformation` is
called with source and target index arrays of different lengths, the call
fails with `invalidArgument`, surfaced immediately to the caller, and aborts
before any numeric work: the transform out-parameter keeps its incoming value
`t0` and the estimator state is untouched. -/
theorem indices_length_mismatch_fails (e : TransformationEstimationPointToPointRobust)
    (svd : M3 → M3 × M3 × M3) (cloudSrc : List Point) (indicesSrc : List ℕ)
    (cloudTgt : List Point) (indicesTgt : List ℕ) (t0 : M4)
    (h : indicesSrc.length ≠ indicesTgt.length) :
    estimateRigidTransformationBothIndices e svd cloudSrc indicesSrc cloudTgt indicesTgt t0 =
      ⟨t0, some EstError.invalidArgument, e⟩ := by
  rw [estimateRigidTransformationBothIndices, if_pos h]

/-- Witness for C7: index arrays of lengths 1 and 0. -/
theorem indices_length_mismatch_fails_witness :
    estimateRigidTransformationBothIndices mkEstimator (fun _ => (1, 1, 1)) [] [0] [] [] 0 =
      ⟨0, some EstError.invalidArgument, mkEstimator⟩ :=
  indices_length_mismatch_fails mkEstimator (fun _ => (1, 1, 1)) [] [0] [] [] 0 (by decide)

/-- C8: when zero valid pairs remain after filtering (in particular when there
are zero correspondences), the weighted-centroid computation signals count 0,
the orchestration layer detects that signal and the whole estimation fails
with the distinct caller-visible `degenerateInput` error, leaving the
transform out-parameter at its incoming value `t0` instead of fabricating an
identity-valued transform. -/
theorem degenerate_input_fails (svd : M3 → M3 × M3 × M3) (sigma : ℝ)
    (pairs : List (Point × Point)) (t0 : M4) (h : validPairs pairs = []) :
    (pipelineCentroidSrc sigma pairs).1 = 0 ∧
    runPipeline svd sigma pairs t0 = (t0, some EstError.degenerateInput) ∧
    EstError.degenerateInput ≠ EstError.invalidArgument := by
  have h0 : (pipelineCentroidSrc sigma pairs).1 = 0 := by
    rw [pipelineCentroidSrc, pipelineWeights, h]
    simp [computeWeighted3DCentroid, centroidAccum]
  exact ⟨h0, by rw [runPipeline, if_pos h0], by simp⟩

/-- Witness for C8: a single correspondence whose source point is non-finite;
no valid pair remains. -/
theorem degenerate_input_fails_witness :
    (pipelineCentroidSrc (-1) [(⟨1, 1, 1, false⟩, ⟨0, 0, 0, true⟩)]).1 = 0 ∧
    runPipeline (fun _ => (1, 1, 1)) (-1) [(⟨1, 1, 1, false⟩, ⟨0, 0, 0, true⟩)] 0 =
      (0, some EstError.degenerateInput) ∧
    EstError.degenerateInput ≠ EstError.invalidArgument :=
  degenerate_input_fails (fun _ => (1, 1, 1)) (-1) [(⟨1, 1, 1, false⟩, ⟨0, 0, 0, true⟩)] 0
    (by simp [validPairs, pairValid])

/-- C9: the estimation only ever consumes the validated pairs: running the
internal pipeline on a pair list containing invalid (non-finite) points
returns exactly the same result as running it on the list with those pairs
removed, for every `sigma` and every SVD dependency. -/
theorem invalid_points_skipped (svd : M3 → M3 × M3 × M3) (sigma : ℝ)
    (pairs : List (Point × Point)) (t0 : M4) :
    runPipeline svd sigma pairs t0 = runPipeline svd sigma (validPairs pairs) t0 := by
  have hv : validPairs (validPairs pairs) = validPairs pairs := by
    simp [validPairs, List.filter_filter]
  have hW : pipelineWeights sigma (validPairs pairs) = pipelineWeights sigma pairs := by
    rw [pipelineWeights, pipelineWeights, hv]
  have hCS : pipelineCentroidSrc sigma (validPairs pairs) = pipelineCentroidSrc sigma pairs := by
    rw [pipelineCentroidSrc, pipelineCentroidSrc, hv, hW]
  have hCT : pipelineCentroidTgt sigma (validPairs pairs) = pipelineCentroidTgt sigma pairs := by
    rw [pipelineCentroidTgt, pipelineCentroidTgt, hv, hW]
  have hSD : pipelineSrcDemean sigma (validPairs pairs) = pipelineSrcDemean sigma pairs := by
    rw [pipelineSrcDemean, pipelineSrcDemean, hv, hCS]
  have hTD : pipelineTgtDemean sigma (validPairs pairs) = pipelineTgtDemean sigma pairs := by
    rw [pipelineTgtDemean, pipelineTgtDemean, hv, hCT]
  rw [runPipeline, runPipeline, hCS, hCT, hSD, hTD, hW]

/-- C10: the scale parameter `sigma_` defaults to the sentinel `-1 <= 0` at
construction, the setter `set_sigma` stores exactly its argument (and, the
estimator having no other state, changes nothing else and is independent of
the previous state), and all four `const` estimation entry points leave the
estimator state unchanged. -/
theorem sigma_lifecycle :
    mkEstimator.sigma_ = -1 ∧
    mkEstimator.sigma_ ≤ 0 ∧
    (∀ e sigma, (set_sigma e sigma).sigma_ = sigma) ∧
    (∀ e e2 sigma, set_sigma e sigma = set_sigma e2 sigma) ∧
    (∀ e svd cs ct t0, (estimateRigidTransformationFull e svd cs ct t0).state = e) ∧
    (∀ e svd cs is2 ct t0,
      (estimateRigidTransformationSrcIndices e svd cs is2 ct t0).state = e) ∧
    (∀ e svd cs is2 ct it2 t0,
      (estimateRigidTransformationBothIndices e svd cs is2 ct it2 t0).state = e) ∧
    (∀ e svd cs ct corrs t0,
      (estimateRigidTransformationCorrs e svd cs ct corrs t0).state = e) := by
  refine ⟨rfl, by norm_num [mkEstimator], fun e sigma => rfl, fun e e2 sigma => rfl,
    ?_, ?_, ?_, ?_⟩
  · intro e svd cs ct t0
    rw [estimateRigidTransformationFull]
    split <;> rfl
  · intro e svd cs is2 ct t0
    rw [estimateRigidTransformationSrcIndices]
    split
    · rfl
    · split <;> rfl
  · intro e svd cs is2 ct it2 t0
    rw [estimateRigidTransformationBothIndices]
    split
    · rfl
    · split <;> rfl
  · intro e svd cs ct corrs t0
    rw [estimateRigidTransformationCorrs]
    split <;> rfl

/-- The identity SVD oracle `H = 1 * H * 1^t`, used as the trusted SVD
dependency in concrete runs. -/
def svdId : M3 → M3 × M3 × M3 := fun H => (1, H, 1)

/-- The origin point, valid. -/
def p0 : Point := ⟨0, 0, 0, true⟩

/-- The identity factors yield the identity rotation without correction. -/
theorem rotationFromSVD_one_one : rotationFromSVD (1 : M3) 1 = 1 := by
  rw [rotationFromSVD, Matrix.transpose_one, Matrix.mul_one]
  rw [if_neg]
  rw [Matrix.det_one]
  norm_num

/-- Under the identity SVD oracle the solved rotation is always the
identity. -/
theorem solvedRotation_svdId (sd td : List V3) (w : List ℝ) :
    solvedRotation svdId sd td w = 1 := by
  rw [solvedRotation]
  exact rotationFromSVD_one_one

/-- Dropping the homogeneous component of the origin centroid. -/
theorem vec3of4_origin : vec3of4 ![0, 0, 0, 1] = 0 := by
  funext i
  fin_cases i <;> simp [vec3of4]

/-- A concrete successful run: one valid self-correspondence at the origin,
uniform-weight sentinel `sigma = -1`, identity SVD oracle. -/
theorem runPipeline_concrete :
    runPipeline svdId (-1) [(p0, p0)] 0 = (assembleTransform 1 0, none) := by
  have hvp : validPairs [(p0, p0)] = [(p0, p0)] := rfl
  have hw : pairWeight (-1) (p0, p0) = 1 := by
    rw [pairWeight, robustWeight]
    exact if_pos (by norm_num)
  have hws : pipelineWeights (-1) [(p0, p0)] = [1] := by
    rw [pipelineWeights, hvp]
    simp [hw]
  have hacc : centroidAccum ([p0].zip [(1 : ℝ)]) = (![0, 0, 0], 1, 1) := by
    simp [centroidAccum, p0, Point.vec]
  have hcen : computeWeighted3DCentroid [p0] [1] (0 : V4) = (1, ![0, 0, 0, 1]) := by
    simp only [computeWeighted3DCentroid, hacc]
    norm_num
  have hcs : pipelineCentroidSrc (-1) [(p0, p0)] = (1, ![0, 0, 0, 1]) := by
    rw [pipelineCentroidSrc, hvp, hws]
    simpa using hcen
  have hct : pipelineCentroidTgt (-1) [(p0, p0)] = (1, ![0, 0, 0, 1]) := by
    rw [pipelineCentroidTgt, hvp, hws]
    simpa using hcen
  rw [runPipeline, if_neg (by rw [hcs]; norm_num)]
  rw [getTransformationFromCorrelation, solvedRotation_svdId, hcs, hct]
  rw [vec3of4_origin]
  rw [Matrix.mulVec_zero, sub_zero]

/-- C1: for every input accepted by the estimation (every successful run of
the shared pipeline behind the four overloads), provided the trusted SVD
dependency returns factors `U`, `V` with orthonormal columns, the upper-left
3x3 block of the returned 4x4 transform is the reflection-corrected rotation
and is a proper rotation: determinant +1 and orthonormal columns (and rows),
never a reflection; moreover when the SVD candidate `R = V * U^t` has
`det R < 0`, the returned block is the product recomputed after negating the
last column of `V`. -/
theorem estimated_rotation_proper (svd : M3 → M3 × M3 × M3)
    (hsvd : ∀ H : M3, ((svd H).1)ᵀ * (svd H).1 = 1 ∧ ((svd H).2.2)ᵀ * (svd H).2.2 = 1)
    (sigma : ℝ) (pairs : List (Point × Point)) (t0 T : M4)
    (hT : runPipeline svd sigma pairs t0 = (T, none)) :
    upperLeft3 T =
      rotationFromSVD (svd (pipelineH sigma pairs)).1 (svd (pipelineH sigma pairs)).2.2 ∧
    (upperLeft3 T).det = 1 ∧
    (upperLeft3 T)ᵀ * upperLeft3 T = 1 ∧
    upperLeft3 T * (upperLeft3 T)ᵀ = 1 ∧
    (((svd (pipelineH sigma pairs)).2.2 * ((svd (pipelineH sigma pairs)).1)ᵀ).det < 0 →
      upperLeft3 T =
        negLastCol (svd (pipelineH sigma pairs)).2.2 * ((svd (pipelineH sigma pairs)).1)ᵀ) := by
  by_cases h0 : (pipelineCentroidSrc sigma pairs).1 = 0
  · rw [runPipeline, if_pos h0] at hT
    rw [Prod.mk.injEq] at hT
    exact absurd hT.2 (by simp)
  · rw [runPipeline, if_neg h0, getTransformationFromCorrelation] at hT
    rw [Prod.mk.injEq] at hT
    obtain ⟨hT1, -⟩ := hT
    rw [← hT1, upperLeft3_assembleTransform, solvedRotation, pipelineH]
    obtain ⟨hU, hV⟩ := hsvd (corrMatrix (pipelineSrcDemean sigma pairs)
      (pipelineTgtDemean sigma pairs) (pipelineWeights sigma pairs))
    obtain ⟨hdet, ho1, ho2⟩ := rotationFromSVD_proper _ _ hU hV
    refine ⟨rfl, hdet, ho1, ho2, fun hneg => ?_⟩
    rw [rotationFromSVD, if_pos hneg]

/-- Witness for C1: the concrete run of `runPipeline_concrete` with the
identity SVD oracle. -/
theorem estimated_rotation_proper_witness :
    upperLeft3 (assembleTransform 1 0) =
      rotationFromSVD (svdId (pipelineH (-1) [(p0, p0)])).1
        (svdId (pipelineH (-1) [(p0, p0)])).2.2 ∧
    (upperLeft3 (assembleTransform 1 0)).det = 1 ∧
    (upperLeft3 (assembleTransform 1 0))ᵀ * upperLeft3 (assembleTransform 1 0) = 1 ∧
    upperLeft3 (assembleTransform 1 0) * (upperLeft3 (assembleTransform 1 0))ᵀ = 1 ∧
    (((svdId (pipelineH (-1) [(p0, p0)])).2.2 *
        ((svdId (pipelineH (-1) [(p0, p0)])).1)ᵀ).det < 0 →
      upperLeft3 (assembleTransform 1 0) =
        negLastCol (svdId (pipelineH (-1) [(p0, p0)])).2.2 *
          ((svdId (pipelineH (-1) [(p0, p0)])).1)ᵀ) :=
  estimated_rotation_proper svdId
    (fun _ => ⟨by simp [svdId], by simp [svdId]⟩) (-1) [(p0, p0)] 0
    (assembleTransform 1 0) runPipeline_concrete

/-- C6: for every input with at least one valid correspondence pair (every
successful run of the shared pipeline), the bottom row of the returned 4x4
matrix is exactly `[0, 0, 0, 1]` and its translation column equals
`centroid_tgt - R * centroid_src` over the 3-D parts of the homogeneous
centroids, `R` being the upper-left rotation block. -/
theorem translation_and_bottom_row (svd : M3 → M3 × M3 × M3) (sigma : ℝ)
    (pairs : List (Point × Point)) (t0 T : M4)
    (hT : runPipeline svd sigma pairs t0 = (T, none)) :
    (∀ j : Fin 4, T 3 j = ![(0 : ℝ), 0, 0, 1] j) ∧
    ∀ i : Fin 3, T i.castSucc 3 =
      vec3of4 (pipelineCentroidTgt sigma pairs).2 i -
        (upperLeft3 T).mulVec (vec3of4 (pipelineCentroidSrc sigma pairs).2) i := by
  by_cases h0 : (pipelineCentroidSrc sigma pairs).1 = 0
  · rw [runPipeline, if_pos h0] at hT
    rw [Prod.mk.injEq] at hT
    exact absurd hT.2 (by simp)
  · rw [runPipeline, if_neg h0, getTransformationFromCorrelation] at hT
    rw [Prod.mk.injEq] at hT
    obtain ⟨hT1, -⟩ := hT
    rw [← hT1, upperLeft3_assembleTransform]
    have h3 : ¬(((3 : Fin 4) : ℕ) < 3) := by decide
    constructor
    · intro j
      have h33 : ((3 : Fin 4) : ℕ) = 3 := rfl
      fin_cases j <;> simp [assembleTransform, h3, h33]
    · intro i
      have hi : ((i.castSucc : Fin 4) : ℕ) < 3 := by
        simpa using i.isLt
      have hcast : (⟨((i.castSucc : Fin 4) : ℕ), hi⟩ : Fin 3) = i := by
        apply Fin.ext
        simp
      simp only [assembleTransform, Matrix.of_apply]
      rw [dif_pos hi, dif_neg h3, hcast]
      simp [Pi.sub_apply]

/-- Modelled from the spec's words (sections 6 and 8, uniform-weight
fallback reference): the plain, unweighted 3-D centroid of the valid points,
as used by an ordinary SVD-based rigid alignment: the coordinate mean with
homogeneous component 1, with the same count-0 out-parameter convention. -/
noncomputable def plainCentroid (points : List Point) (c0 : V4) : ℕ × V4 :=
  if (points.filter fun p => p.valid).length = 0 then (0, c0)
  else
    ((points.filter fun p => p.valid).length,
      ![((points.filter fun p => p.valid).map Point.vec).sum 0 /
          ((points.filter fun p => p.valid).length : ℝ),
        ((points.filter fun p => p.valid).map Point.vec).sum 1 /
          ((points.filter fun p => p.valid).length : ℝ),
        ((points.filter fun p => p.valid).map Point.vec).sum 2 /
          ((points.filter fun p => p.valid).length : ℝ),
        1])

/-- Modelled from the spec's words: the unweighted correlation matrix
`H = sum of (src_i - c_src)(tgt_i - c_tgt)^t` of an ordinary SVD-based rigid
alignment. -/
def plainCorr (src tgt : List V3) : M3 :=
  ((src.zip tgt).map fun st => outerProd st.1 st.2).sum

/-- Source-side plain centroid of the validated pairs. -/
noncomputable def plainCentroidSrc (pairs : List (Point × Point)) : ℕ × V4 :=
  plainCentroid ((validPairs pairs).map fun pr => pr.1) 0

/-- Target-side plain centroid of the validated pairs. -/
noncomputable def plainCentroidTgt (pairs : List (Point × Point)) : ℕ × V4 :=
  plainCentroid ((validPairs pairs).map fun pr => pr.2) 0

/-- Demeaned source coordinates of the unweighted reference alignment. -/
noncomputable def plainSrcDemean (pairs : List (Point × Point)) : List V3 :=
  (validPairs pairs).map fun pr => pr.1.vec - vec3of4 (plainCentroidSrc pairs).2

/-- Demeaned target coordinates of the unweighted reference alignment. -/
noncomputable def plainTgtDemean (pairs : List (Point × Point)) : List V3 :=
  (validPairs pairs).map fun pr => pr.2.vec - vec3of4 (plainCentroidTgt pairs).2

/-- The rotation of the unweighted reference alignment, with the same trusted
SVD dependency and the same reflection correction. -/
noncomputable def plainRotation (svd : M3 → M3 × M3 × M3)
    (pairs : List (Point × Point)) : M3 :=
  rotationFromSVD (svd (plainCorr (plainSrcDemean pairs) (plainTgtDemean pairs))).1
    (svd (plainCorr (plainSrcDemean pairs) (plainTgtDemean pairs))).2.2

/-- Modelled from the spec's words (section 8): an ordinary unweighted
SVD-based rigid alignment over the same validated correspondences: uniform
weight 1 per pair, plain centroids and correlation matrix, the same SVD
dependency, reflection correction, translation recovery, assembly and
degenerate-input policy. -/
noncomputable def unweightedAlignment (svd : M3 → M3 × M3 × M3)
    (pairs : List (Point × Point)) (t0 : M4) : M4 × Option EstError :=
  if (plainCentroidSrc pairs).1 = 0 then (t0, some EstError.degenerateInput)
  else
    (assembleTransform (plainRotation svd pairs)
      (vec3of4 (plainCentroidTgt pairs).2 -
        (plainRotation svd pairs).mulVec (vec3of4 (plainCentroidSrc pairs).2)), none)

/-- Zipping a list with constant units is mapping to pairs with 1. -/
theorem zip_map_unit (l : List Point) :
    l.zip (l.map fun _ => (1 : ℝ)) = l.map fun p => (p, (1 : ℝ)) := by
  induction l with
  | nil => rfl
  | cons p ps ih => simp only [List.map_cons, List.zip_cons_cons, ih]

/-- The centroid fold over unit-weighted points: coordinate sum, cast count
and count over the valid points. -/
theorem centroidAccum_unit (l : List Point) :
    centroidAccum (l.map fun p => (p, (1 : ℝ))) =
      (((l.filter fun p => p.valid).map Point.vec).sum,
       ((l.filter fun p => p.valid).length : ℝ),
       (l.filter fun p => p.valid).length) := by
  induction l with
  | nil => simp [centroidAccum]
  | cons p ps ih =>
    by_cases hv : p.valid
    · simp only [List.map_cons, centroidAccum, List.foldr_cons, hv, if_true, List.filter_cons]
      rw [show (List.foldr _ _ (ps.map fun p => (p, (1 : ℝ))) : V3 × ℝ × ℕ) =
        centroidAccum (ps.map fun p => (p, (1 : ℝ))) from rfl, ih]
      simp [hv, add_comm]
    · simp only [List.map_cons, centroidAccum, List.foldr_cons, hv, if_false, List.filter_cons]
      rw [show (List.foldr _ _ (ps.map fun p => (p, (1 : ℝ))) : V3 × ℝ × ℕ) =
        centroidAccum (ps.map fun p => (p, (1 : ℝ))) from rfl, ih]
      simp [hv]

/-- With uniform unit weights the weighted centroid computation degrades to
the plain mean of the valid points. -/
theorem computeWeighted3DCentroid_unit_weights (pts : List Point) (c0 : V4) :
    computeWeighted3DCentroid pts (pts.map fun _ => (1 : ℝ)) c0 = plainCentroid pts c0 := by
  simp only [computeWeighted3DCentroid, zip_map_unit, centroidAccum_unit]
  rw [plainCentroid]

/-- Mapping to constant units factors through any intermediate map. -/
theorem map_const_one_comp {α β : Type} (l : List α) (f : α → β) :
    (l.map fun _ => (1 : ℝ)) = (l.map f).map fun _ => (1 : ℝ) := by
  rw [List.map_map]
  rfl

/-- With uniform unit weights the weighted correlation matrix degrades to the
unweighted one. -/
theorem corrMatrix_unit_weights (l : List (Point × Point)) (f g : Point × Point → V3) :
    corrMatrix (l.map f) (l.map g) (l.map fun _ => (1 : ℝ)) =
      plainCorr (l.map f) (l.map g) := by
  rw [corrMatrix, plainCorr, List.zip_map', List.zip_map', List.map_map, List.map_map]
  refine congrArg List.sum (List.map_congr_left fun a _ => ?_)
  simp [Function.comp]

/-- C4: with the sentinel `sigma <= 0`, the transform produced by the robust
estimator on any correspondence set is identical to the transform produced by
an ordinary unweighted SVD-based rigid alignment (uniform weight 1 per
correspondence) on the same correspondences, including the degenerate-input
behaviour. -/
theorem sigma_nonpos_refines_unweighted (e : TransformationEstimationPointToPointRobust)
    (he : e.sigma_ ≤ 0) (svd : M3 → M3 × M3 × M3) (pairs : List (Point × Point))
    (t0 : M4) :
    runPipeline svd e.sigma_ pairs t0 = unweightedAlignment svd pairs t0 := by
  have hW : pipelineWeights e.sigma_ pairs = (validPairs pairs).map fun _ => (1 : ℝ) := by
    rw [pipelineWeights]
    refine List.map_congr_left fun pr _ => ?_
    rw [pairWeight, robustWeight]
    exact if_pos he
  have hCS : pipelineCentroidSrc e.sigma_ pairs = plainCentroidSrc pairs := by
    rw [pipelineCentroidSrc, plainCentroidSrc, hW,
      map_const_one_comp (validPairs pairs) (fun pr => pr.1),
      computeWeighted3DCentroid_unit_weights]
  have hCT : pipelineCentroidTgt e.sigma_ pairs = plainCentroidTgt pairs := by
    rw [pipelineCentroidTgt, plainCentroidTgt, hW,
      map_const_one_comp (validPairs pairs) (fun pr => pr.2),
      computeWeighted3DCentroid_unit_weights]
  have hSD : pipelineSrcDemean e.sigma_ pairs = plainSrcDemean pairs := by
    rw [pipelineSrcDemean, plainSrcDemean, hCS]
  have hTD : pipelineTgtDemean e.sigma_ pairs = plainTgtDemean pairs := by
    rw [pipelineTgtDemean, plainTgtDemean, hCT]
  have hH : corrMatrix (pipelineSrcDemean e.sigma_ pairs) (pipelineTgtDemean e.sigma_ pairs)
      (pipelineWeights e.sigma_ pairs) =
      plainCorr (plainSrcDemean pairs) (plainTgtDemean pairs) := by
    rw [hSD, hTD, hW, plainSrcDemean, plainTgtDemean, corrMatrix_unit_weights]
  have hRot : solvedRotation svd (pipelineSrcDemean e.sigma_ pairs)
      (pipelineTgtDemean e.sigma_ pairs) (pipelineWeights e.sigma_ pairs) =
      plainRotation svd pairs := by
    rw [solvedRotation, plainRotation, hH]
  rw [runPipeline, unweightedAlignment, getTransformationFromCorrelation, hRot, hCS, hCT]

/-- Witness for C4: the default-constructed estimator (`sigma_ = -1`) on the
concrete one-pair input. -/
theorem sigma_nonpos_refines_unweighted_witness :
    runPipeline svdId mkEstimator.sigma_ [(p0, p0)] 0 =
      unweightedAlignment svdId [(p0, p0)] 0 :=
  sigma_nonpos_refines_unweighted mkEstimator (by show (-1 : ℝ) ≤ 0; norm_num) svdId
    [(p0, p0)] 0

/-- Specification of an exact singular value decomposition `H = U * S * V^t`
as returned by the trusted library dependency (`usv = (U, S, V)`): factors
with orthonormal columns and a diagonal `S` with non-negative entries. -/
def SVDSpec (H : M3) (usv : M3 × M3 × M3) : Prop :=
  H = usv.1 * usv.2.1 * usv.2.2ᵀ ∧
  usv.1ᵀ * usv.1 = 1 ∧
  usv.2.2ᵀ * usv.2.2 = 1 ∧
  ∃ d : Fin 3 → ℝ, usv.2.1 = Matrix.diagonal d ∧ ∀ i, 0 ≤ d i

/-- For a symmetric positive definite matrix, any exact SVD has `V * U^t = 1`:
the candidate rotation of the Kabsch step is the identity.  The proof goes
through the uniqueness of the positive semidefinite square root of `H ^ 2`. -/
theorem svd_posdef_rotation_eq_one (H : M3) (hH : H.PosDef) (U S V : M3)
    (hdec : H = U * S * Vᵀ) (hU : Uᵀ * U = 1) (hV : Vᵀ * V = 1)
    (d : Fin 3 → ℝ) (hS : S = Matrix.diagonal d) (hd : ∀ i, 0 ≤ d i) :
    V * Uᵀ = 1 := by
  have hUU : U * Uᵀ = 1 := Matrix.mul_eq_one_comm.mp hU
  have hHsym : Hᵀ = H := by
    rw [← Matrix.conjTranspose_eq_transpose_of_trivial]
    exact hH.1
  have hSsym : Sᵀ = S := by rw [hS, Matrix.diagonal_transpose]
  have hSpsd : S.PosSemidef := by
    rw [hS]
    exact Matrix.posSemidef_diagonal_iff.mpr hd
  have hApsd : (U * S * Uᵀ).PosSemidef := by
    have := hSpsd.mul_mul_conjTranspose_same U
    rwa [Matrix.conjTranspose_eq_transpose_of_trivial] at this
  have hHH : H * H = U * (S * (S * Uᵀ)) := by
    nth_rewrite 2 [← hHsym]
    rw [hdec]
    rw [Matrix.transpose_mul, Matrix.transpose_mul, Matrix.transpose_transpose, hSsym]
    simp only [Matrix.mul_assoc]
    rw [← Matrix.mul_assoc Vᵀ V, hV, Matrix.one_mul]
  have hAA : U * S * Uᵀ * (U * S * Uᵀ) = U * (S * (S * Uᵀ)) := by
    simp only [Matrix.mul_assoc]
    rw [← Matrix.mul_assoc Uᵀ U, hU, Matrix.one_mul]
  have hHA : H = U * S * Uᵀ := by
    refine hH.posSemidef.eq_of_sq_eq_sq hApsd ?_
    rw [pow_two, pow_two, hHH, hAA]
  have hcan : S * Vᵀ = S * Uᵀ := by
    have h1 : U * (S * Vᵀ) = U * (S * Uᵀ) := by
      have := hdec.symm.trans hHA
      simpa only [Matrix.mul_assoc] using this
    have h2 := congrArg (fun X => Uᵀ * X) h1
    simpa only [← Matrix.mul_assoc, hU, Matrix.one_mul] using h2
  have hdetS : S.det ≠ 0 := by
    intro h0
    have hdetH : H.det = 0 := by
      rw [hdec, Matrix.det_mul, Matrix.det_mul, h0, mul_zero, zero_mul]
    exact absurd hdetH (ne_of_gt hH.det_pos)
  have hdne : ∀ i, d i ≠ 0 := by
    rw [hS, Matrix.det_diagonal] at hdetS
    exact fun i => Finset.prod_ne_zero_iff.mp hdetS i (Finset.mem_univ i)
  have hSinv : Matrix.diagonal (fun i => (d i)⁻¹) * S = 1 := by
    rw [hS, Matrix.diagonal_mul_diagonal]
    have : (fun i => (d i)⁻¹ * d i) = fun _ => (1 : ℝ) :=
      funext fun i => inv_mul_cancel₀ (hdne i)
    rw [this, Matrix.diagonal_one]
  have hVU : Vᵀ = Uᵀ := by
    have h3 := congrArg (fun X => Matrix.diagonal (fun i => (d i)⁻¹) * X) hcan
    simpa only [← Matrix.mul_assoc, hSinv, Matrix.one_mul] using h3
  have hVeq : V = U := by
    have := congrArg Matrix.transpose hVU
    simpa [Matrix.transpose_transpose] using this
  rw [hVeq]
  exact hUU

/-- The candidate rotation being already the identity, the reflection
correction leaves it alone. -/
theorem rotationFromSVD_of_prod_one (U V : M3) (h : V * Uᵀ = 1) :
    rotationFromSVD U V = 1 := by
  rw [rotationFromSVD, h, Matrix.det_one, if_neg (by norm_num)]

/-- Assembling the identity rotation with zero translation yields the 4x4
identity. -/
theorem assembleTransform_one_zero : assembleTransform 1 0 = (1 : M4) := by
  ext i j
  simp only [assembleTransform, Matrix.of_apply]
  by_cases hi : (i : ℕ) < 3
  · rw [dif_pos hi]
    by_cases hj : (j : ℕ) < 3
    · rw [dif_pos hj, Matrix.one_apply, Matrix.one_apply]
      have hiff : ((⟨(i : ℕ), hi⟩ : Fin 3) = ⟨(j : ℕ), hj⟩) ↔ i = j := by
        simp [Fin.ext_iff]
      by_cases hij : i = j
      · rw [if_pos (hiff.mpr hij), if_pos hij]
      · rw [if_neg (fun hc => hij (hiff.mp hc)), if_neg hij]
    · have hne : i ≠ j := by
        intro hc
        rw [hc] at hi
        exact hj hi
      rw [dif_neg hj, Matrix.one_apply_ne hne]
      rfl
  · rw [dif_neg hi]
    have hi3 : (i : ℕ) = 3 := by omega
    by_cases hj3 : (j : ℕ) = 3
    · have hij : i = j := Fin.ext (by rw [hi3, hj3])
      rw [if_pos hj3, hij, Matrix.one_apply_eq]
    · have hne : i ≠ j := by
        intro hc
        apply hj3
        rw [← hc]
        exact hi3
      rw [if_neg hj3, Matrix.one_apply_ne hne]

/-- Zipping a list with itself pairs every element with itself. -/
theorem zip_self_eq_map (l : List Point) : l.zip l = l.map fun p => (p, p) := by
  induction l with
  | nil => rfl
  | cons p ps ih => simp only [List.zip_cons_cons, List.map_cons, ih]

/-- The count returned by the centroid computation is always the number of
valid entries of the zipped sequence. -/
theorem computeWeighted3DCentroid_fst (pts : List Point) (ws : List ℝ) (c : V4) :
    (computeWeighted3DCentroid pts ws c).1 =
      ((pts.zip ws).filter fun pw => pw.1.valid).length := by
  simp only [computeWeighted3DCentroid, centroidAccum_eq]
  by_cases h : ((pts.zip ws).filter fun pw => pw.1.valid).length = 0
  · simp [h]
  · simp [h]

/-- C3 (amended): for every all-valid point cloud whose correlation matrix in
the self-paired run is positive definite (a non-degenerate configuration:
valid points spanning 3-D), calling `estimateRigidTransformation` with the
cloud as both source and target yields exactly the 4x4 identity transform,
for every value of `sigma` and every exact SVD of that matrix.  (For
rank-deficient configurations the rotation is only determined up to the SVD's
choice of factors, the documented inherent limitation of section 4.4; see the
counterexample.) -/
theorem identity_for_posdef_input (e : TransformationEstimationPointToPointRobust)
    (svd : M3 → M3 × M3 × M3) (cloud : List Point)
    (hvalid : ∀ p ∈ cloud, p.valid = true)
    (hsvd : SVDSpec (pipelineH e.sigma_ (cloud.zip cloud))
      (svd (pipelineH e.sigma_ (cloud.zip cloud))))
    (hPD : (pipelineH e.sigma_ (cloud.zip cloud)).PosDef) (t0 : M4) :
    estimateRigidTransformationFull e svd cloud cloud t0 = ⟨1, none, e⟩ := by
  have hvp : validPairs (cloud.zip cloud) = cloud.zip cloud := by
    rw [validPairs, List.filter_eq_self]
    intro a ha
    rw [zip_self_eq_map] at ha
    obtain ⟨p, hp, rfl⟩ := List.mem_map.mp ha
    simp [pairValid, hvalid p hp]
  have hmap1 : (validPairs (cloud.zip cloud)).map (fun pr => pr.1) = cloud := by
    rw [hvp, zip_self_eq_map, List.map_map]
    exact List.map_id cloud
  have hmap2 : (validPairs (cloud.zip cloud)).map (fun pr => pr.2) = cloud := by
    rw [hvp, zip_self_eq_map, List.map_map]
    exact List.map_id cloud
  have hct : pipelineCentroidTgt e.sigma_ (cloud.zip cloud) =
      pipelineCentroidSrc e.sigma_ (cloud.zip cloud) := by
    rw [pipelineCentroidTgt, pipelineCentroidSrc, hmap1, hmap2]
  have hne : cloud ≠ [] := by
    intro hnil
    rw [hnil] at hPD
    have hH0 : pipelineH e.sigma_ (([] : List Point).zip ([] : List Point)) = 0 := rfl
    rw [hH0] at hPD
    have hpos := hPD.det_pos
    rw [Matrix.det_zero ⟨(0 : Fin 3)⟩] at hpos
    exact lt_irrefl 0 hpos
  have hlen : cloud.length = (pipelineWeights e.sigma_ (cloud.zip cloud)).length := by
    simp [pipelineWeights, hvp]
  have hfilter : cloud.filter (fun p => p.valid) = cloud :=
    List.filter_eq_self.mpr fun p hp => hvalid p hp
  have hcount : ¬(pipelineCentroidSrc e.sigma_ (cloud.zip cloud)).1 = 0 := by
    rw [pipelineCentroidSrc, hmap1, computeWeighted3DCentroid_fst,
      zip_filter_valid_length cloud (pipelineWeights e.sigma_ (cloud.zip cloud)) hlen,
      hfilter]
    intro h0
    exact hne (List.length_eq_zero.mp h0)
  obtain ⟨hdec, hU, hV, d, hS, hd⟩ := hsvd
  have hrot : (svd (pipelineH e.sigma_ (cloud.zip cloud))).2.2 *
      ((svd (pipelineH e.sigma_ (cloud.zip cloud))).1)ᵀ = 1 :=
    svd_posdef_rotation_eq_one _ hPD _ _ _ hdec hU hV d hS hd
  have hsolved : solvedRotation svd (pipelineSrcDemean e.sigma_ (cloud.zip cloud))
      (pipelineTgtDemean e.sigma_ (cloud.zip cloud))
      (pipelineWeights e.sigma_ (cloud.zip cloud)) = 1 := by
    have hpip : corrMatrix (pipelineSrcDemean e.sigma_ (cloud.zip cloud))
        (pipelineTgtDemean e.sigma_ (cloud.zip cloud))
        (pipelineWeights e.sigma_ (cloud.zip cloud)) =
        pipelineH e.sigma_ (cloud.zip cloud) := rfl
    rw [solvedRotation, hpip]
    exact rotationFromSVD_of_prod_one _ _ hrot
  have hrun : runPipeline svd e.sigma_ (cloud.zip cloud) t0 = (1, none) := by
    rw [runPipeline, if_neg hcount, getTransformationFromCorrelation, hsolved, hct,
      Matrix.one_mulVec, sub_self, assembleTransform_one_zero]
  rw [estimateRigidTransformationFull, if_neg (not_not_intro rfl), hrun]

/-- A single valid off-origin point. -/
def pcex : Point := ⟨1, 0, 0, true⟩

/-- Rotation by 90 degrees about the z axis. -/
def Rz90 : M3 := !![0, -1, 0; 1, 0, 0; 0, 0, 1]

/-- An SVD oracle factoring every matrix as `1 * 0 * Rz90^t`: a legal exact
SVD of the zero correlation matrix produced by a single-point cloud. -/
def svdCex : M3 → M3 × M3 × M3 := fun _ => (1, 0, Rz90)

/-- The transpose of the z-rotation, written out. -/
theorem Rz90_transpose : Rz90ᵀ = !![0, 1, 0; -1, 0, 0; 0, 0, 1] := by
  ext i j
  fin_cases i <;> fin_cases j <;>
    simp [Rz90, Matrix.transpose_apply, Matrix.vecHead, Matrix.vecTail]

/-- The z-rotation has orthonormal columns. -/
theorem Rz90_ortho : Rz90ᵀ * Rz90 = 1 := by
  rw [Rz90_transpose, Rz90, Matrix.mul_fin_three]
  norm_num
  ext i j
  fin_cases i <;> fin_cases j <;>
    simp [Matrix.one_apply, Matrix.vecHead, Matrix.vecTail]

/-- The z-rotation has determinant one. -/
theorem Rz90_det : Rz90.det = 1 := by
  rw [Matrix.det_fin_three]
  norm_num [Rz90]

/-- The SVD factors `(1, Rz90)` escape the reflection correction. -/
theorem rotationFromSVD_one_Rz90 : rotationFromSVD 1 Rz90 = Rz90 := by
  rw [rotationFromSVD, Matrix.transpose_one, Matrix.mul_one, Rz90_det,
    if_neg (by norm_num)]

/-- Under the counterexample oracle the solved rotation is always `Rz90`. -/
theorem solvedRotation_svdCex (sd td : List V3) (w : List ℝ) :
    solvedRotation svdCex sd td w = Rz90 := by
  rw [solvedRotation]
  exact rotationFromSVD_one_Rz90

/-- A concrete run on the single-point identical cloud: weights and centroids. -/
theorem pipelineCentroidSrc_pcex :
    pipelineCentroidSrc (-1) [(pcex, pcex)] = (1, ![1, 0, 0, 1]) := by
  have hvp : validPairs [(pcex, pcex)] = [(pcex, pcex)] := rfl
  have hw : pairWeight (-1) (pcex, pcex) = 1 := by
    rw [pairWeight, robustWeight]
    exact if_pos (by norm_num)
  have hws : pipelineWeights (-1) [(pcex, pcex)] = [1] := by
    rw [pipelineWeights, hvp]
    simp [hw]
  have hacc : centroidAccum ([pcex].zip [(1 : ℝ)]) = (![1, 0, 0], 1, 1) := by
    simp [centroidAccum, pcex, Point.vec]
  have hcen : computeWeighted3DCentroid [pcex] [1] (0 : V4) = (1, ![1, 0, 0, 1]) := by
    simp only [computeWeighted3DCentroid, hacc]
    norm_num
  rw [pipelineCentroidSrc, hvp, hws]
  simpa using hcen

/-- Target side of the same run. -/
theorem pipelineCentroidTgt_pcex :
    pipelineCentroidTgt (-1) [(pcex, pcex)] = (1, ![1, 0, 0, 1]) := by
  have h := pipelineCentroidSrc_pcex
  rw [pipelineCentroidSrc] at h
  rw [pipelineCentroidTgt]
  exact h

/-- The single self-paired point demeans to the zero vector. -/
theorem pcex_demean : Point.vec pcex - vec3of4 ![1, 0, 0, 1] = 0 := by
  funext i
  fin_cases i <;> simp [pcex, Point.vec, vec3of4]

/-- The correlation matrix of the demeaned single-point cloud is zero. -/
theorem corrMatrix_zero_singleton (w : ℝ) :
    corrMatrix [(0 : V3)] [(0 : V3)] [w] = 0 := by
  ext i j
  simp [corrMatrix, outerProd]

/-- The correlation matrix the pipeline hands to the SVD on the single-point
identical cloud is the zero matrix. -/
theorem pipelineH_pcex : pipelineH (-1) [(pcex, pcex)] = 0 := by
  have hvp : validPairs [(pcex, pcex)] = [(pcex, pcex)] := rfl
  rw [pipelineH, pipelineSrcDemean, pipelineTgtDemean, hvp, pipelineCentroidSrc_pcex,
    pipelineCentroidTgt_pcex]
  simp only [List.map_cons, List.map_nil]
  rw [pcex_demean]
  rw [show pipelineWeights (-1) [(pcex, pcex)] =
    [pairWeight (-1) (pcex, pcex)] from rfl]
  exact corrMatrix_zero_singleton _

/-- C3 as universally stated is refutable: on a degenerate (single-point)
all-valid identical cloud there is an exact SVD of the zero, rank-deficient
correlation matrix under which the estimation succeeds yet returns a
non-identity transform, for the default `sigma`. -/
theorem identity_claim_cex :
    (∀ p ∈ [pcex], p.valid = true) ∧
    SVDSpec (pipelineH mkEstimator.sigma_ ([pcex].zip [pcex]))
      (svdCex (pipelineH mkEstimator.sigma_ ([pcex].zip [pcex]))) ∧
    (estimateRigidTransformationFull mkEstimator svdCex [pcex] [pcex] 0).error = none ∧
    (estimateRigidTransformationFull mkEstimator svdCex [pcex] [pcex] 0).transform ≠ 1 := by
  have hsig : mkEstimator.sigma_ = -1 := rfl
  have hzip : ([pcex].zip [pcex]) = [(pcex, pcex)] := rfl
  have hrun : runPipeline svdCex (-1) [(pcex, pcex)] 0 =
      (assembleTransform Rz90
        (vec3of4 ![1, 0, 0, 1] - Rz90.mulVec (vec3of4 ![1, 0, 0, 1])), none) := by
    rw [runPipeline, if_neg (by rw [pipelineCentroidSrc_pcex]; norm_num),
      getTransformationFromCorrelation, solvedRotation_svdCex,
      pipelineCentroidSrc_pcex, pipelineCentroidTgt_pcex]
  have hest : estimateRigidTransformationFull mkEstimator svdCex [pcex] [pcex] 0 =
      ⟨assembleTransform Rz90
          (vec3of4 ![1, 0, 0, 1] - Rz90.mulVec (vec3of4 ![1, 0, 0, 1])),
        none, mkEstimator⟩ := by
    rw [estimateRigidTransformationFull, if_neg (not_not_intro rfl), hsig, hzip, hrun]
  refine ⟨?_, ?_, ?_, ?_⟩
  · intro p hp
    rw [List.mem_singleton] at hp
    rw [hp]
    rfl
  · rw [hsig, hzip, pipelineH_pcex]
    refine ⟨?_, ?_, ?_, ⟨fun _ => 0, ?_, fun i => le_refl 0⟩⟩
    · show (0 : M3) = 1 * 0 * Rz90ᵀ
      simp
    · show (1 : M3)ᵀ * 1 = 1
      simp
    · exact Rz90_ortho
    · show (0 : M3) = Matrix.diagonal fun _ => 0
      simp
  · rw [hest]
  · rw [hest]
    intro hcontra
    have hcontra2 : assembleTransform Rz90
        (vec3of4 ![1, 0, 0, 1] - Rz90.mulVec (vec3of4 ![1, 0, 0, 1])) = 1 := hcontra
    have h00 := congrFun (congrFun hcontra2 0) 0
    have hL : assembleTransform Rz90
        (vec3of4 ![1, 0, 0, 1] - Rz90.mulVec (vec3of4 ![1, 0, 0, 1])) 0 0 = 0 := by
      have h03 : ((0 : Fin 4) : ℕ) < 3 := by norm_num
      simp only [assembleTransform, Matrix.of_apply]
      rw [dif_pos h03, dif_pos h03]
      show Rz90 0 0 = 0
      simp [Rz90]
    rw [hL, Matrix.one_apply_eq] at h00
    norm_num at h00

/-- A tetrahedral cloud with centroid at the origin, spanning 3-D; all points
valid. -/
def cloud4 : List Point :=
  [⟨1, 1, 1, true⟩, ⟨1, -1, -1, true⟩, ⟨-1, 1, -1, true⟩, ⟨-1, -1, 1, true⟩]

/-- All self-pairs of the tetrahedral cloud are valid. -/
theorem validPairs_cloud4 : validPairs (cloud4.zip cloud4) = cloud4.zip cloud4 := rfl

/-- With the sentinel `sigma = -1` every pair of the tetrahedral run has
weight 1. -/
theorem pipelineWeights_cloud4 :
    pipelineWeights (-1) (cloud4.zip cloud4) = [1, 1, 1, 1] := by
  have hw : ∀ q q2 : Point, pairWeight (-1) (q, q2) = 1 := fun q q2 => by
    rw [pairWeight, robustWeight]
    exact if_pos (by norm_num)
  rw [pipelineWeights, validPairs_cloud4]
  simp [cloud4, List.zip_cons_cons, hw]

/-- The centroid of the tetrahedral cloud under unit weights: count 4 and the
origin with homogeneous 1. -/
theorem centroid_cloud4 :
    computeWeighted3DCentroid cloud4 [(1 : ℝ), 1, 1, 1] 0 = (4, ![0, 0, 0, 1]) := by
  have h1 : ([(1 : ℝ), 1, 1, 1] : List ℝ) = cloud4.map fun _ => (1 : ℝ) := rfl
  have h2 : cloud4.filter (fun p => p.valid) = cloud4 := rfl
  rw [h1, computeWeighted3DCentroid_unit_weights, plainCentroid, h2]
  norm_num [cloud4, Point.vec]

/-- Source centroid of the tetrahedral pipeline run. -/
theorem pipelineCentroidSrc_cloud4 :
    pipelineCentroidSrc (-1) (cloud4.zip cloud4) = (4, ![0, 0, 0, 1]) := by
  rw [pipelineCentroidSrc, validPairs_cloud4, pipelineWeights_cloud4,
    show (cloud4.zip cloud4).map (fun pr => pr.1) = cloud4 from rfl]
  exact centroid_cloud4

/-- Target centroid of the tetrahedral pipeline run. -/
theorem pipelineCentroidTgt_cloud4 :
    pipelineCentroidTgt (-1) (cloud4.zip cloud4) = (4, ![0, 0, 0, 1]) := by
  rw [pipelineCentroidTgt, validPairs_cloud4, pipelineWeights_cloud4,
    show (cloud4.zip cloud4).map (fun pr => pr.2) = cloud4 from rfl]
  exact centroid_cloud4

/-- Demeaned source coordinates of the tetrahedral run: the coordinates
themselves. -/
theorem pipelineSrcDemean_cloud4 :
    pipelineSrcDemean (-1) (cloud4.zip cloud4) = cloud4.map Point.vec := by
  rw [pipelineSrcDemean, validPairs_cloud4, pipelineCentroidSrc_cloud4]
  have hv : vec3of4 (((4, ![0, 0, 0, 1]) : ℕ × V4).2) = 0 := vec3of4_origin
  rw [hv]
  simp [sub_zero]
  rfl

/-- Demeaned target coordinates of the tetrahedral run. -/
theorem pipelineTgtDemean_cloud4 :
    pipelineTgtDemean (-1) (cloud4.zip cloud4) = cloud4.map Point.vec := by
  rw [pipelineTgtDemean, validPairs_cloud4, pipelineCentroidTgt_cloud4]
  have hv : vec3of4 (((4, ![0, 0, 0, 1]) : ℕ × V4).2) = 0 := vec3of4_origin
  rw [hv]
  simp [sub_zero]
  rfl

/-- The correlation matrix of the tetrahedral run is `diag (4, 4, 4)`:
positive definite. -/
theorem pipelineH_cloud4 :
    pipelineH (-1) (cloud4.zip cloud4) = Matrix.diagonal fun _ => (4 : ℝ) := by
  rw [pipelineH, pipelineSrcDemean_cloud4, pipelineTgtDemean_cloud4,
    pipelineWeights_cloud4]
  ext i j
  fin_cases i <;> fin_cases j <;>
    simp [corrMatrix, outerProd, cloud4, Point.vec, List.zip_cons_cons,
      Matrix.diagonal, Matrix.vecHead, Matrix.vecTail] <;>
    norm_num

/-- Witness for the amended C3: the tetrahedral identical-cloud run with the
identity SVD oracle and the default estimator returns exactly the identity
transform. -/
theorem identity_for_posdef_input_witness :
    estimateRigidTransformationFull mkEstimator svdId cloud4 cloud4 0 =
      ⟨1, none, mkEstimator⟩ :=
  identity_for_posdef_input mkEstimator svdId cloud4
    (by
      intro p hp
      fin_cases hp <;> rfl)
    (by
      rw [show mkEstimator.sigma_ = -1 from rfl, pipelineH_cloud4]
      exact ⟨by simp [svdId], by simp [svdId], by simp [svdId],
        ⟨fun _ => 4, rfl, fun i => by norm_num⟩⟩)
    (by
      rw [show mkEstimator.sigma_ = -1 from rfl, pipelineH_cloud4]
      exact Matrix.posDef_diagonal_iff.mpr fun i => by norm_num)
    0

/-- Witness for C6: the concrete run of `runPipeline_concrete`. -/
theorem translation_and_bottom_row_witness :
    (∀ j : Fin 4, assembleTransform 1 0 3 j = ![(0 : ℝ), 0, 0, 1] j) ∧
    ∀ i : Fin 3, assembleTransform 1 0 i.castSucc 3 =
      vec3of4 (pipelineCentroidTgt (-1) [(p0, p0)]).2 i -
        (upperLeft3 (assembleTransform 1 0)).mulVec
          (vec3of4 (pipelineCentroidSrc (-1) [(p0, p0)]).2) i :=
  translation_and_bottom_row svdId (-1) [(p0, p0)] 0 (assembleTransform 1 0)
    runPipeline_concrete
